import Mathlib

/-!
Verification of the team-former repository (shallow embedding of src/3.py).

The repository's core is the class HackathonTeamFormation in src/3.py
(the most evolved of the three near-duplicate scripts): form_teams
(greedy allocation against team-type templates plus a redistribution
pass for leftover participants) and balance_teams (first-improvement
same-role swap local search).  The two earlier scripts
(src/team-former.py, src/team-former1.py) are prior evolutions of the
same core; where a claim cites them the relevant logic is identical in
src/3.py unless noted.

Python floats are modelled by Rat, Python lists by List, Python dicts
(which iterate in insertion order) by association lists, and Python
record dicts for participants by the Person structure.  list.remove is
List.erase (removes the first element comparing equal).  The while-True
construction loop of form_teams is modelled with an explicit fuel
parameter: the Python loop need not terminate (a template whose role
minimums are all zero can commit empty teams forever), so every claim
instantiates the fuel with a value large enough for its inputs.
-/

/-- A participant record, as produced by pandas to_dict in
HackathonTeamFormation.__init__ (src/3.py lines 8-13): the fields the
core reads are name (identity/display), role (matched case-insensitively
via .lower()), experience and the evaluation score.  Python dict
equality (used by list.remove) compares all fields, hence DecidableEq. -/
structure Person where
  name : String
  role : String
  experience : Int
  score : Rat
deriving DecidableEq

/-- A per-role requirement of a team type: the Python dict
{'min': _, 'max': _} (src/3.py lines 35-48).  rmin models 'min' and
rmax models 'max'. -/
structure RoleReq where
  rmin : Nat
  rmax : Nat
deriving DecidableEq

/-- One team-type configuration: a key of the team_types dict together
with its value {'min_members', 'max_members', 'roles'} (src/3.py lines
29-50).  roles is an association list because Python dicts iterate in
insertion order. -/
structure TeamType where
  name : String
  min_members : Nat
  max_members : Nat
  roles : List (String × RoleReq)
deriving DecidableEq

/-- A formed team: the dict {'type': team_type, 'members': [...]} built
at src/3.py line 65. -/
structure Team where
  ttype : String
  members : List Person
deriving DecidableEq

/-- Insert one person into a list sorted by descending score, after all
strictly higher scores and before all equal or lower scores.  Auxiliary
for sortDesc. -/
def insertDesc (p : Person) : List Person → List Person
  | [] => [p]
  | q :: qs => if q.score ≤ p.score then p :: q :: qs else q :: insertDesc p qs

/-- Python's list.sort(key=lambda x: x['evaluation score'], reverse=True)
(src/3.py lines 56 and 128): a stable descending sort by score.  Python's
sort is stable with reverse=True (equal keys keep their original relative
order); insertion placing each element before later equal-score elements
realises exactly that specification (proved below as permutation,
descending-sortedness and score-filter preservation, which together
characterise the stable sort uniquely). -/
def sortDesc : List Person → List Person
  | [] => []
  | p :: ps => insertDesc p (sortDesc ps)

/-- ASCII lowercasing of one character (the strings this program
matches — role tags and template keys — are ASCII, so this coincides
with Python's case mapping on them). -/
def lowerChar (c : Char) : Char :=
  if 65 ≤ c.toNat ∧ c.toNat ≤ 90 then Char.ofNat (c.toNat + 32) else c

/-- ASCII uppercasing of one character. -/
def upperChar (c : Char) : Char :=
  if 97 ≤ c.toNat ∧ c.toNat ≤ 122 then Char.ofNat (c.toNat - 32) else c

/-- ASCII letter test (Python's "cased character" for ASCII strings). -/
def asciiAlpha (c : Char) : Bool :=
  decide ((65 ≤ c.toNat ∧ c.toNat ≤ 90) ∨ (97 ≤ c.toNat ∧ c.toNat ≤ 122))

/-- Python's str.lower(), used for all role matching in form_teams
(src/3.py lines 70, 71, 89, 90, 94, 133, 145). -/
def pylower (s : String) : String := (s.data.map lowerChar).asString

/-- Python's str.title(), used (only) in the buggy role-max lookup of the
redistribution pass (src/3.py line 146): the first letter of every word
(maximal run of cased characters) is uppercased and the rest lowercased,
so for example QA becomes Qa and AI Engineer becomes Ai Engineer. -/
def pytitle (s : String) : String :=
  (s.data.foldl
    (fun (acc : List Char × Bool) c =>
      (acc.1 ++ [if acc.2 then lowerChar c else upperChar c], asciiAlpha c))
    ([], false)).1.asString

/-- The removal loop `for p in selected: remaining_participants.remove(p)`
(src/3.py lines 81-82, 100-101, 113-114): each listed person is erased
(first occurrence comparing equal) from the pool in order. -/
def removeAll (pool : List Person) (selected : List Person) : List Person :=
  selected.foldl (fun pl p => pl.erase p) pool

/-- The mutable state threaded through one team-construction attempt of
form_teams: the tentative member list (team['members']), the shared pool
(remaining_participants) and the last value bound to the Python loop
variable `role` — that variable leaks out of the for-loops of the
construction phase and is read (undefined-by-design) at src/3.py line
146; none means it was never bound (Python would raise NameError there). -/
structure PickState where
  members : List Person
  pool : List Person
  leaked : Option String
deriving DecidableEq

/-- The minimum-fill loop of a construction attempt (src/3.py lines
69-82): for each role in declared order take the req min top-scoring
available people of that (lowercased) role; if fewer are available the
attempt fails (formed = False).  The people already taken for earlier
roles stay removed from the pool and are returned only inside the
abandoned members list — exactly the source behaviour (they are never
re-appended on this failure path). -/
def minFill : List (String × RoleReq) → PickState → Bool × PickState
  | [], st => (true, st)
  | (role, req) :: rest, st =>
    let available := st.pool.filter (fun p => pylower p.role == pylower role)
    if available.length < req.rmin then
      (false, { st with leaked := some role })
    else
      let selected := available.take req.rmin
      minFill rest
        { members := st.members ++ selected
          pool := removeAll st.pool selected
          leaked := some role }

/-- The maximum-fill loop (src/3.py lines 87-101): for each role in
declared order, add up to req max minus current count further people of
that role from the pool.  Note there is no check of max_members here. -/
def maxFill : List (String × RoleReq) → PickState → PickState
  | [], st => st
  | (role, req) :: rest, st =>
    let current := (st.members.filter (fun m => pylower m.role == pylower role)).length
    let can_add := req.rmax - current
    if can_add > 0 then
      let available := st.pool.filter (fun p => pylower p.role == pylower role)
      let to_add := min can_add available.length
      if to_add > 0 then
        let selected := available.take to_add
        maxFill rest
          { members := st.members ++ selected
            pool := removeAll st.pool selected
            leaked := some role }
      else maxFill rest { st with leaked := some role }
    else maxFill rest { st with leaked := some role }

/-- The team-size floor fill (src/3.py lines 103-114): if the team is
still below min_members, top it up with the highest-scoring remaining
people regardless of role.  This loop does not bind the Python variable
`role`. -/
def floorFill (cfg : TeamType) (st : PickState) : PickState :=
  if st.members.length < cfg.min_members then
    let needed := cfg.min_members - st.members.length
    let to_add := min needed st.pool.length
    if to_add > 0 then
      let selected := st.pool.take to_add
      { st with members := st.members ++ selected, pool := removeAll st.pool selected }
    else st
  else st

/-- The while-True construction loop of form_teams (src/3.py lines
62-123), with explicit fuel (see the file header).  Each round looks up
the current template by round-robin index (team_idx % number of types —
the modulo that raises ZeroDivisionError in Python when team_types is
empty, modelled by the unreachable none branch since form_teams guards
it), runs minFill, and on failure breaks immediately, keeping the
committed teams and dropping the partial attempt's members from both the
pool and the output; on success it runs maxFill, then floorFill, then
commits the team iff its size reached min_members, otherwise re-appends
the attempt's members to the pool and breaks.  Returns (teams, pool,
leaked role variable). -/
def formLoop (tts : List TeamType) :
    Nat → Nat → List Team → List Person → Option String →
      List Team × List Person × Option String
  | 0, _, teams, pool, leaked => (teams, pool, leaked)
  | fuel+1, team_idx, teams, pool, leaked =>
    match tts[team_idx % tts.length]? with
    | none => (teams, pool, leaked)
    | some cfg =>
      match minFill cfg.roles ⟨[], pool, leaked⟩ with
      | (false, st) => (teams, st.pool, st.leaked)
      | (true, st) =>
        let st2 := maxFill cfg.roles st
        let st3 := floorFill cfg st2
        if st3.members.length ≥ cfg.min_members then
          formLoop tts fuel (team_idx + 1) (teams ++ [⟨cfg.name, st3.members⟩])
            st3.pool st3.leaked
        else
          (teams, st3.pool ++ st3.members, st3.leaked)

/-- Sum of evaluation scores of a member list (the sum(...) expressions
of src/3.py lines 152-153, 207, 232-233). -/
def sumScores : List Person → Rat
  | [] => 0
  | p :: ps => p.score + sumScores ps

/-- The role-requirement lookup of the redistribution pass, src/3.py line
146: type_config['roles'].get(key, {}).get('max', 0) — the declared max
for the exactly-matching key, or 0 when absent. -/
def roleMaxLookup (cfg : TeamType) (key : String) : Nat :=
  match cfg.roles.find? (fun rr => rr.1 == key) with
  | some rr => rr.2.rmax
  | none => 0

/-- The dict lookup team_types[team['type']] (src/3.py line 137). -/
def lookupType (tts : List TeamType) (n : String) : Option TeamType :=
  tts.find? (fun t => t.name == n)

/-- The candidate-team scan of the redistribution pass for one leftover
person p (src/3.py lines 131-158): walk the teams in order keeping the
best (index, score_diff) pair, where best starts as float('-inf')
(modelled by none).  A team is skipped when it is at or above its
template's max_members, or when the buggy role-max check fires: the
role count counted is that of p's lowercased role, but the max is looked
up under str.title() of the leaked construction-loop variable `role`
(src/3.py line 146) — and only blocks when that max is positive.  The
Except models the two exceptions Python can raise here: KeyError when a
team's type is not a template key (line 137) and NameError when `role`
was never bound (line 146). -/
def scanTeams (tts : List TeamType) (leaked : Option String) (p : Person) :
    List Team → Nat → Option (Nat × Rat) → Except String (Option Nat)
  | [], _, best => .ok (best.map Prod.fst)
  | t :: rest, i, best =>
    match lookupType tts t.ttype with
    | none => .error "KeyError"
    | some cfg =>
      if t.members.length ≥ cfg.max_members then
        scanTeams tts leaked p rest (i + 1) best
      else
        match leaked with
        | none => .error "NameError"
        | some lr =>
          let role_count :=
            (t.members.filter (fun m => pylower m.role == pylower p.role)).length
          let role_max := roleMaxLookup cfg (pytitle lr)
          if role_max > 0 ∧ role_count ≥ role_max then
            scanTeams tts leaked p rest (i + 1) best
          else
            let size := t.members.length
            let current_avg := if size > 0 then sumScores t.members / (size : Rat) else 0
            let new_avg := (sumScores t.members + p.score) / ((size : Rat) + 1)
            let d := new_avg - current_avg
            match best with
            | none => scanTeams tts leaked p rest (i + 1) (some (i, d))
            | some (bi, bd) =>
              if d > bd then scanTeams tts leaked p rest (i + 1) (some (i, d))
              else scanTeams tts leaked p rest (i + 1) (some (bi, bd))

/-- teams[k]['members'].append(p) (src/3.py line 161). -/
def setTeam : List Team → Nat → Person → List Team
  | [], _, _ => []
  | t :: ts, 0, p => ⟨t.ttype, t.members ++ [p]⟩ :: ts
  | t :: ts, k+1, p => t :: setTeam ts k p

/-- The redistribution loop `for p in remaining_participants:` with
remaining_participants.remove(p) inside the body (src/3.py lines
130-162), modelled with Python's actual list-iterator semantics: an
index i that advances by one every iteration over the mutating list, so
that removing the current element makes the iterator skip the element
that slid into its position.  Fuel only bounds the iteration count (the
caller passes more than the initial list length, which the index-based
loop can never exceed). -/
def redistLoop (tts : List TeamType) (leaked : Option String) :
    Nat → List Team → List Person → Nat → Except String (List Team × List Person)
  | 0, teams, rem, _ => .ok (teams, rem)
  | fuel+1, teams, rem, i =>
    if h : i < rem.length then
      let p := rem.get ⟨i, h⟩
      match scanTeams tts leaked p teams 0 none with
      | .error e => .error e
      | .ok none => redistLoop tts leaked fuel teams rem (i + 1)
      | .ok (some k) =>
        redistLoop tts leaked fuel (setTeam teams k p) (rem.erase p) (i + 1)
    else .ok (teams, rem)

/-- HackathonTeamFormation.form_teams (src/3.py lines 24-164): sort the
pool descending by score, run the round-robin construction loop (with
the given fuel, see the header), then, when leftovers remain, sort them
descending and run the redistribution loop.  Python raises
ZeroDivisionError at line 63 when team_types is empty (modelled by the
error branch); the Except also carries the redistribution pass's
possible KeyError/NameError. -/
def form_teams (fuel : Nat) (tts : List TeamType) (participants : List Person) :
    Except String (List Team × List Person) :=
  if tts.isEmpty then .error "ZeroDivisionError"
  else
    let r := formLoop tts fuel 0 [] (sortDesc participants) none
    if r.2.1.isEmpty then .ok (r.1, r.2.1)
    else redistLoop tts r.2.2 (r.2.1.length + 1) r.1 (sortDesc r.2.1) 0

/-- Test participant: one QA person, score 90. -/
def qa1 : Person := ⟨"QA1", "QA", 1, 90⟩

/-- Test participant: Dev, score 80. -/
def dev1 : Person := ⟨"Dev1", "Dev", 1, 80⟩

/-- Test participant: Dev, score 70. -/
def dev2 : Person := ⟨"Dev2", "Dev", 1, 70⟩

/-- Test participant: Dev, score 60. -/
def dev3 : Person := ⟨"Dev3", "Dev", 1, 60⟩

/-- Test participant: Dev, score 50. -/
def dev4 : Person := ⟨"Dev4", "Dev", 1, 50⟩

/-- Test template: 2-4 members, exactly one Dev (min 1, max 1) and one QA
(min 1, max 1). -/
def exCfg : TeamType := ⟨"type1", 2, 4, [("Dev", ⟨1, 1⟩), ("QA", ⟨1, 1⟩)]⟩

/-- Test configuration holding just exCfg. -/
def exTTs : List TeamType := [exCfg]

/-- Test pool: one QA and four Devs in descending score order. -/
def exPool : List Person := [qa1, dev1, dev2, dev3, dev4]

/-- The teams form_teams produces from exTTs/exPool: one committed team
(Dev1, QA1) that the redistribution pass then grows with Dev3. -/
def exTeams : List Team := [⟨"type1", [dev1, qa1, dev3]⟩]

/-- Test participant: role A, score 40. -/
def pa1 : Person := ⟨"A1", "A", 1, 40⟩

/-- Test participant: role A, score 30. -/
def pa2 : Person := ⟨"A2", "A", 1, 30⟩

/-- Test participant: role B, score 20. -/
def pb1 : Person := ⟨"B1", "B", 1, 20⟩

/-- Test participant: role B, score 10. -/
def pb2 : Person := ⟨"B2", "B", 1, 10⟩

/-- Test template whose role maxes (2 + 2) exceed its max_members (2). -/
def c3Cfg : TeamType := ⟨"t", 1, 2, [("A", ⟨1, 2⟩), ("B", ⟨1, 2⟩)]⟩

/-- Average evaluation score of a member list: total / size for a
non-empty team, and 0 for an empty one — exactly the team metrics of
balance_teams (src/3.py lines 200-213, where an empty team gets
avg_score 0). -/
def avgScore (l : List Person) : Rat :=
  if l.length = 0 then 0 else sumScores l / (l.length : Rat)

/-- The swap acceptance test of balance_teams (src/3.py lines 231-239):
from the pass-start metrics avg_i, avg_j and sizes n_i, n_j, the
prospective new averages are (avg*n − out + in)/n for each side, and the
swap is accepted iff the new absolute difference is strictly below the
current one. -/
def swapCond (avgi avgj : Rat) (ni nj : Nat) (m1 m2 : Person) : Bool :=
  decide (|((avgi * (ni : Rat) - m1.score + m2.score) / (ni : Rat)) -
            ((avgj * (nj : Rat) - m2.score + m1.score) / (nj : Rat))| <
          |avgi - avgj|)

/-- The inner member loop of balance_teams (src/3.py lines 229-246) for
a fixed m1: the first member m2 of the second team whose raw role string
equals m1's (a case-sensitive comparison, unlike the lowercased matching
used everywhere else) and for which the swap test accepts. -/
def findInner (avgi avgj : Rat) (ni nj : Nat) (m1 : Person) : List Person → Option Person
  | [] => none
  | m2 :: rest =>
    if (m1.role == m2.role && swapCond avgi avgj ni nj m1 m2) then some m2
    else findInner avgi avgj ni nj m1 rest

/-- The outer member loop (src/3.py line 228): the first pair (m1, m2)
in member order accepted by findInner. -/
def findPair (avgi avgj : Rat) (ni nj : Nat) : List Person → List Person → Option (Person × Person)
  | [], _ => none
  | m1 :: ms, l2 =>
    match findInner avgi avgj ni nj m1 l2 with
    | some m2 => some (m1, m2)
    | none => findPair avgi avgj ni nj ms l2

/-- One accepted swap: indices i < j of the two teams and the two
same-role members exchanged. -/
structure SwapChoice where
  i : Nat
  j : Nat
  m1 : Person
  m2 : Person
deriving DecidableEq

/-- The inner team loop of one balance_teams pass (src/3.py line 217):
for a fixed team index i, scan the teams after it (j = i+1, ...),
skipping pairs of different types (line 222), and return the first
accepted swap.  The metrics passed to the member scan are computed from
the current teams, which equals the pass-start metrics because a pass
mutates nothing before its single accepted swap. -/
def scanJ (i : Nat) (ti : Team) : Nat → List Team → Option SwapChoice
  | _, [] => none
  | j, tj :: rest =>
    if ti.ttype == tj.ttype then
      match findPair (avgScore ti.members) (avgScore tj.members)
          ti.members.length tj.members.length ti.members tj.members with
      | some (m1, m2) => some ⟨i, j, m1, m2⟩
      | none => scanJ i ti (j + 1) rest
    else scanJ i ti (j + 1) rest

/-- The outer team loop of one balance_teams pass (src/3.py line 216). -/
def scanI : Nat → List Team → Option SwapChoice
  | _, [] => none
  | i, ti :: rest =>
    match scanJ i ti (i + 1) rest with
    | some s => some s
    | none => scanI (i + 1) rest

/-- The first accepted swap of one balance_teams pass (src/3.py lines
215-253), or none when a full pass finds no improving swap.  The dead
lookup team_types[type_i] at line 226 (its value is never used; it could
only raise KeyError for a team type absent from the configuration, which
cannot occur for teams produced by form_teams) is not modelled, so the
balancer is a pure function of the team list. -/
def findSwap (ts : List Team) : Option SwapChoice := scanI 0 ts

/-- Replace the member list of the team at index k by f applied to it;
other teams are untouched. -/
def modifyMembers (k : Nat) (f : List Person → List Person) : List Team → List Team
  | [] => []
  | t :: ts =>
    match k with
    | 0 => ⟨t.ttype, f t.members⟩ :: ts
    | k' + 1 => t :: modifyMembers k' f ts

/-- Perform an accepted swap (src/3.py lines 240-244): remove m1 from
team i and append m2, remove m2 from team j and append m1 (removal is
list.remove — first occurrence comparing equal). -/
def applySwap (ts : List Team) (s : SwapChoice) : List Team :=
  modifyMembers s.j (fun l => (l.erase s.m2) ++ [s.m1])
    (modifyMembers s.i (fun l => (l.erase s.m1) ++ [s.m2]) ts)

/-- The while loop of balance_teams (src/3.py lines 195-253) with its
fuel: each pass either applies its first accepted swap and continues, or
terminates the loop. -/
def balanceGo : Nat → List Team → List Team
  | 0, ts => ts
  | fuel + 1, ts =>
    match findSwap ts with
    | some s => balanceGo fuel (applySwap ts s)
    | none => ts

/-- HackathonTeamFormation.balance_teams (src/3.py lines 190-255): up to
100 passes (the `while improved and iterations < 100` cap), one accepted
swap per pass. -/
def balance_teams (ts : List Team) : List Team := balanceGo 100 ts

/-- The global imbalance metric named by the spec (section 8): the sum
over all unordered pairs of teams sharing a template of the absolute
difference of their average scores.  (This definition follows the
spec's words — the code itself never computes a global metric, which is
what claim C5 is about.) -/
def globalImbalance : List Team → Rat
  | [] => 0
  | t :: rest =>
    rest.foldl
      (fun acc u =>
        acc + (if t.ttype == u.ttype then |avgScore t.members - avgScore u.members| else 0))
      0 + globalImbalance rest

/-- The member list of the team at index k (empty when out of range). -/
def membersAt (ts : List Team) (k : Nat) : List Person :=
  match ts[k]? with
  | some t => t.members
  | none => []

/-- Number of members of a team member list carrying exactly the raw
role string r. -/
def roleCount (r : String) (l : List Person) : Nat :=
  (l.filter (fun m => m.role == r)).length

/-- t reaches u by exactly k accepted balancer swaps: the step relation
of balance_teams. -/
inductive Reaches : List Team → Nat → List Team → Prop
  | refl (t : List Team) : Reaches t 0 t
  | step {t u : List Team} {k : Nat} (s : SwapChoice) :
      findSwap t = some s → Reaches (applySwap t s) k u → Reaches t (k + 1) u

/-- Balancer test member: role r, score 4 (alone in the first team). -/
def bpa : Person := ⟨"a", "r", 1, 4⟩

/-- Balancer test member: role r, score 0 (first member of the second
team). -/
def bpb1 : Person := ⟨"b1", "r", 1, 0⟩

/-- Balancer test member: role r, score 0 (second member of the second
team). -/
def bpb2 : Person := ⟨"b2", "r", 1, 0⟩

/-- Balancer test member: role r, score 10 (alone in the third team). -/
def bpc : Person := ⟨"c", "r", 1, 10⟩

/-- Balancer test member: role r, score 10 (alone in the fourth team). -/
def bpd : Person := ⟨"d", "r", 1, 10⟩

/-- Four teams of the same template with averages 4, 0, 10, 10. -/
def cexTeams : List Team :=
  [⟨"T", [bpa]⟩, ⟨"T", [bpb1, bpb2]⟩, ⟨"T", [bpc]⟩, ⟨"T", [bpd]⟩]

/-- The first accepted swap on cexTeams: teams 0 and 1 exchange a and
b1 (pairwise gap 4 becomes 2). -/
def cexSwap : SwapChoice := ⟨0, 1, bpa, bpb1⟩

/-- Everything the balancer guarantees about an accepted swap: valid
team indices i < j, same template, membership of the two exchanged
people, raw-equal role strings, and acceptance of the swap test against
the two teams' current averages and sizes. -/
def SwapOK (ts : List Team) (s : SwapChoice) : Prop :=
  s.i < s.j ∧ ∃ ti tj, ts[s.i]? = some ti ∧ ts[s.j]? = some tj ∧
    ti.ttype = tj.ttype ∧ s.m1 ∈ ti.members ∧ s.m2 ∈ tj.members ∧
    s.m1.role = s.m2.role ∧
    swapCond (avgScore ti.members) (avgScore tj.members)
      ti.members.length tj.members.length s.m1 s.m2 = true

/-- Template used by the C6 witness: one team type needing one QA. -/
def wCfg : TeamType := ⟨"w", 1, 1, [("QA", ⟨1, 1⟩)]⟩

lemma mem_insertDesc {x p : Person} : ∀ {l : List Person}, x ∈ insertDesc p l → x = p ∨ x ∈ l := by
  intro l
  induction l with
  | nil => intro h; simp [insertDesc] at h; exact Or.inl h
  | cons q qs ih =>
    intro h
    by_cases hc : q.score ≤ p.score
    · rw [insertDesc, if_pos hc] at h
      rcases List.mem_cons.mp h with h | h
      · exact Or.inl h
      · exact Or.inr h
    · rw [insertDesc, if_neg hc] at h
      rcases List.mem_cons.mp h with h | h
      · exact Or.inr (by simp [h])
      · rcases ih h with h' | h'
        · exact Or.inl h'
        · exact Or.inr (List.mem_cons_of_mem _ h')

lemma perm_insertDesc (p : Person) : ∀ l : List Person, List.Perm (insertDesc p l) (p :: l) := by
  intro l
  induction l with
  | nil => simp [insertDesc]
  | cons q qs ih =>
    by_cases hc : q.score ≤ p.score
    · rw [insertDesc, if_pos hc]
    · rw [insertDesc, if_neg hc]
      exact List.Perm.trans (List.Perm.cons q ih) (List.Perm.swap p q qs)

lemma sortDesc_perm : ∀ l : List Person, List.Perm (sortDesc l) l := by
  intro l
  induction l with
  | nil => simp [sortDesc]
  | cons p ps ih =>
    exact List.Perm.trans (perm_insertDesc p (sortDesc ps)) (List.Perm.cons p ih)

lemma pairwise_insertDesc {p : Person} :
    ∀ {l : List Person}, List.Pairwise (fun a b => b.score ≤ a.score) l →
      List.Pairwise (fun a b => b.score ≤ a.score) (insertDesc p l) := by
  intro l
  induction l with
  | nil => intro _; simp [insertDesc]
  | cons q qs ih =>
    intro h
    rcases List.pairwise_cons.mp h with ⟨hq, hqs⟩
    by_cases hc : q.score ≤ p.score
    · rw [insertDesc, if_pos hc]
      refine List.pairwise_cons.mpr ⟨?_, h⟩
      intro x hx
      rcases List.mem_cons.mp hx with rfl | hx
      · exact hc
      · exact le_trans (hq x hx) hc
    · rw [insertDesc, if_neg hc]
      refine List.pairwise_cons.mpr ⟨?_, ih hqs⟩
      intro x hx
      rcases mem_insertDesc hx with rfl | hx
      · exact le_of_lt (lt_of_not_le hc)
      · exact hq x hx

lemma sortDesc_pairwise : ∀ l : List Person,
    List.Pairwise (fun a b => b.score ≤ a.score) (sortDesc l) := by
  intro l
  induction l with
  | nil => simp [sortDesc]
  | cons p ps ih => exact pairwise_insertDesc ih

lemma filter_insertDesc_of_eq {p : Person} {s : Rat} (hp : p.score = s) :
    ∀ l : List Person,
      (insertDesc p l).filter (fun q => decide (q.score = s)) =
        p :: l.filter (fun q => decide (q.score = s)) := by
  intro l
  induction l with
  | nil => simp [insertDesc, hp]
  | cons q qs ih =>
    by_cases hc : q.score ≤ p.score
    · rw [insertDesc, if_pos hc]
      simp [hp]
    · rw [insertDesc, if_neg hc]
      have hq : ¬ (q.score = s) := by
        intro h
        exact hc (le_of_eq (h.trans hp.symm))
      simp only [List.filter_cons]
      rw [ih]
      simp [hq]

lemma filter_insertDesc_of_ne {p : Person} {s : Rat} (hp : ¬ p.score = s) :
    ∀ l : List Person,
      (insertDesc p l).filter (fun q => decide (q.score = s)) =
        l.filter (fun q => decide (q.score = s)) := by
  intro l
  induction l with
  | nil => simp [insertDesc, hp]
  | cons q qs ih =>
    by_cases hc : q.score ≤ p.score
    · rw [insertDesc, if_pos hc]
      simp [hp]
    · rw [insertDesc, if_neg hc]
      simp only [List.filter_cons]
      rw [ih]

lemma sortDesc_filter_score (l : List Person) (s : Rat) :
    (sortDesc l).filter (fun q => decide (q.score = s)) =
      l.filter (fun q => decide (q.score = s)) := by
  induction l with
  | nil => simp [sortDesc]
  | cons p ps ih =>
    rw [sortDesc]
    by_cases hp : p.score = s
    · rw [filter_insertDesc_of_eq hp, ih]
      simp [hp]
    · rw [filter_insertDesc_of_ne hp, ih]
      simp [hp]

/-- C8: the allocator's pool sort (src/3.py line 56, and the re-sort of
the leftovers at line 128) is the deterministic stable descending sort by
evaluation score: the output is a permutation of the input, it is sorted
by non-increasing score, and for every score value the people holding
that score appear in exactly their original input order (ties broken by
input order).  Since the selection steps of form_teams take prefixes of
role-filtered views of this sorted pool, two people with the same role
and the same score are always picked earlier-input first, and the whole
allocation is a deterministic (Lean) function of its inputs. -/
theorem C8_sort_stable_deterministic (l : List Person) :
    List.Perm (sortDesc l) l ∧
    List.Pairwise (fun a b => b.score ≤ a.score) (sortDesc l) ∧
    ∀ s : Rat, (sortDesc l).filter (fun q => decide (q.score = s)) =
      l.filter (fun q => decide (q.score = s)) :=
  ⟨sortDesc_perm l, sortDesc_pairwise l, sortDesc_filter_score l⟩

/-- C1: conservation fails on the code.  On the pool exPool with template
exCfg the first round commits the team (Dev1, QA1); the second
construction attempt takes Dev2 for the Dev minimum, then fails the QA
minimum and breaks (src/3.py lines 74-76, 84-85) without returning Dev2
to the pool — Dev2 is an input person that appears in no returned team
and not in the leftover list: it is silently dropped, refuting the claim
that every input person appears exactly once across teams plus leftover
even when a team attempt is aborted. -/
theorem C1_conservation_violation :
    form_teams 10 exTTs exPool = Except.ok (exTeams, [dev4]) ∧
    dev2 ∈ exPool ∧
    (∀ t ∈ exTeams, dev2 ∉ t.members) ∧
    dev2 ∉ [dev4] := by
  refine ⟨rfl, by decide, by decide, by decide⟩

/-- C2: the redistribution role-max check fails on the code.  In the run
of exTTs/exPool the construction loop commits (Dev1, QA1) — one member
of role dev, the declared max for Dev being 1 — and the leaked loop
variable `role` holds "QA" (the role whose minimum failed).  For
leftover Dev3 the check at src/3.py line 146 looks up
roles.get("QA".title(), i.e. "Qa": absent, so role_max = 0) and
therefore does not block, and Dev3 is added, making two members of role
dev against a declared max of 1: the redistribution pass pushes a role
count above the template max, refuting the claim. -/
theorem C2_rolemax_violation :
    form_teams 10 exTTs exPool = Except.ok (exTeams, [dev4]) ∧
    formLoop exTTs 10 0 [] (sortDesc exPool) none =
      ([⟨"type1", [dev1, qa1]⟩], [dev3, dev4], some "QA") ∧
    roleMaxLookup exCfg "Dev" = 1 ∧
    ((exTeams.headD ⟨"", []⟩).members.filter
      (fun m => pylower m.role == "dev")).length = 2 := by
  refine ⟨rfl, by decide, by decide, by decide⟩

/-- C3: the committed-team size bound fails on the code.  With the
template c3Cfg (min_members 1, max_members 2, roles A and B each min 1
max 2 — the role maxes summing to 4 > 2) and a pool of two As and two
Bs, the maximum-fill phase (src/3.py lines 87-101), which never consults
max_members, grows the team to four members, and the team is committed
at size 4 > max_members = 2, refuting the claim that every committed
team's size stays within [min_members, max_members]. -/
theorem C3_sizebound_violation :
    form_teams 10 [c3Cfg] [pa1, pa2, pb1, pb2] =
      Except.ok ([⟨"t", [pa1, pb1, pa2, pb2]⟩], []) ∧
    ¬ ((⟨"t", [pa1, pb1, pa2, pb2]⟩ : Team).members.length ≤ c3Cfg.max_members) := by
  refine ⟨rfl, by decide⟩

/-- C4: the redistribution processing discipline fails on the code.  In
the run of exTTs/exPool the leftovers after construction are
(Dev3, Dev4) in descending score order; assigning Dev3 removes it from
the list being iterated (src/3.py line 162), so Python's list iterator
skips Dev4 entirely.  Yet Dev4 had a qualifying candidate team — the
same scan that placed Dev3 returns team 0 for Dev4 on the final team
list — so an actually-considered Dev4 would have been assigned, while
the code leaves it in leftover: a leftover person is skipped without
being considered, refuting the claim. -/
theorem C4_redistribution_skip :
    form_teams 10 exTTs exPool = Except.ok (exTeams, [dev4]) ∧
    scanTeams exTTs (some "QA") dev4 exTeams 0 none = Except.ok (some 0) := by
  refine ⟨rfl, rfl⟩

lemma findSwap_cex : findSwap cexTeams = some cexSwap := by
  norm_num [findSwap, scanI, scanJ, findPair, findInner, swapCond, avgScore,
    sumScores, cexTeams, cexSwap, bpa, bpb1, bpb2, bpc, bpd]

/-- C5: the global monotonic-improvement property fails on the code.  On
cexTeams (averages 4, 0, 10, 10, one shared template) the balancer's
first accepted swap exchanges the score-4 and a score-0 member between
teams 0 and 1 — their pairwise gap falls from 4 to 2, which is all the
code checks (src/3.py lines 236-239) — but the spec's global metric, the
sum over all template-matched pairs of |avgScore_i − avgScore_j|, rises
from 36 to 38 because both moved averages recede from the two
average-10 teams.  An accepted swap thus increases the metric, refuting
the claim that it is non-increasing across Balancer iterations. -/
theorem C5_global_metric_counterexample :
    findSwap cexTeams = some cexSwap ∧
    globalImbalance cexTeams < globalImbalance (applySwap cexTeams cexSwap) := by
  refine ⟨findSwap_cex, ?_⟩
  norm_num [globalImbalance, applySwap, modifyMembers, avgScore, sumScores,
    cexTeams, cexSwap, List.erase_cons, bpa, bpb1, bpb2, bpc, bpd,
    List.cons_ne_nil, ne_eq, if_neg]

lemma findInner_spec {avgi avgj : Rat} {ni nj : Nat} {m1 m2 : Person} :
    ∀ {l : List Person}, findInner avgi avgj ni nj m1 l = some m2 →
      m2 ∈ l ∧ m1.role = m2.role ∧ swapCond avgi avgj ni nj m1 m2 = true := by
  intro l
  induction l with
  | nil => intro h; simp [findInner] at h
  | cons a rest ih =>
    intro h
    rw [findInner] at h
    by_cases hc : (m1.role == a.role && swapCond avgi avgj ni nj m1 a) = true
    · rw [if_pos hc] at h
      obtain rfl : a = m2 := Option.some.inj h
      rw [Bool.and_eq_true] at hc
      obtain ⟨hr, hs⟩ := hc
      exact ⟨List.mem_cons_self a rest, eq_of_beq hr, hs⟩
    · rw [if_neg hc] at h
      obtain ⟨hmem, hr, hs⟩ := ih h
      exact ⟨List.mem_cons_of_mem a hmem, hr, hs⟩

lemma findPair_spec {avgi avgj : Rat} {ni nj : Nat} {m1 m2 : Person} :
    ∀ {l1 l2 : List Person}, findPair avgi avgj ni nj l1 l2 = some (m1, m2) →
      m1 ∈ l1 ∧ m2 ∈ l2 ∧ m1.role = m2.role ∧ swapCond avgi avgj ni nj m1 m2 = true := by
  intro l1
  induction l1 with
  | nil => intro l2 h; simp [findPair] at h
  | cons a ms ih =>
    intro l2 h
    rw [findPair] at h
    cases hfi : findInner avgi avgj ni nj a l2 with
    | some m2' =>
      rw [hfi] at h
      injection h with h'
      injection h' with h1 h2
      subst h1
      subst h2
      obtain ⟨hmem, hr, hs⟩ := findInner_spec hfi
      exact ⟨List.mem_cons_self a ms, hmem, hr, hs⟩
    | none =>
      rw [hfi] at h
      obtain ⟨h1, h2, hr, hs⟩ := ih h
      exact ⟨List.mem_cons_of_mem a h1, h2, hr, hs⟩

lemma scanJ_spec {i : Nat} {ti : Team} {s : SwapChoice} :
    ∀ {rest : List Team} {j : Nat}, scanJ i ti j rest = some s →
      s.i = i ∧ ∃ b tj, rest[b]? = some tj ∧ s.j = j + b ∧ ti.ttype = tj.ttype ∧
        s.m1 ∈ ti.members ∧ s.m2 ∈ tj.members ∧ s.m1.role = s.m2.role ∧
        swapCond (avgScore ti.members) (avgScore tj.members)
          ti.members.length tj.members.length s.m1 s.m2 = true := by
  intro rest
  induction rest with
  | nil => intro j h; simp [scanJ] at h
  | cons tj' rest' ih =>
    intro j h
    rw [scanJ] at h
    by_cases ht : (ti.ttype == tj'.ttype) = true
    · rw [if_pos ht] at h
      cases hfp : findPair (avgScore ti.members) (avgScore tj'.members)
          ti.members.length tj'.members.length ti.members tj'.members with
      | some pr =>
        rw [hfp] at h
        obtain ⟨m1, m2⟩ := pr
        obtain rfl : (⟨i, j, m1, m2⟩ : SwapChoice) = s := Option.some.inj h
        obtain ⟨h1, h2, hr, hs⟩ := findPair_spec hfp
        exact ⟨rfl, 0, tj', by simp, by simp, eq_of_beq ht, h1, h2, hr, hs⟩
      | none =>
        rw [hfp] at h
        obtain ⟨hi, b, tj, hb, hj, rest⟩ := ih h
        refine ⟨hi, b + 1, tj, by simpa using hb, by omega, rest⟩
    · rw [if_neg ht] at h
      obtain ⟨hi, b, tj, hb, hj, rest⟩ := ih h
      refine ⟨hi, b + 1, tj, by simpa using hb, by omega, rest⟩

lemma scanI_spec {s : SwapChoice} :
    ∀ {l : List Team} {i : Nat}, scanI i l = some s →
      ∃ a b ti tj, l[a]? = some ti ∧ l[a + 1 + b]? = some tj ∧ s.i = i + a ∧
        s.j = i + a + 1 + b ∧ ti.ttype = tj.ttype ∧ s.m1 ∈ ti.members ∧
        s.m2 ∈ tj.members ∧ s.m1.role = s.m2.role ∧
        swapCond (avgScore ti.members) (avgScore tj.members)
          ti.members.length tj.members.length s.m1 s.m2 = true := by
  intro l
  induction l with
  | nil => intro i h; simp [scanI] at h
  | cons ti' rest' ih =>
    intro i h
    rw [scanI] at h
    cases hj : scanJ i ti' (i + 1) rest' with
    | some s' =>
      rw [hj] at h
      obtain rfl : s' = s := Option.some.inj h
      obtain ⟨hi, b, tj, hb, hsj, hty, hm1, hm2, hr, hs⟩ := scanJ_spec hj
      refine ⟨0, b, ti', tj, by simp, ?_, by omega, by omega, hty, hm1, hm2, hr, hs⟩
      have hix : (0 : Nat) + 1 + b = b + 1 := by omega
      rw [hix]
      simpa using hb
    | none =>
      rw [hj] at h
      obtain ⟨a, b, ti, tj, hti, htj, hi, hsj, rest⟩ := ih h
      refine ⟨a + 1, b, ti, tj, by simpa using hti, ?_, by omega, by omega, rest⟩
      have hix : a + 1 + 1 + b = (a + 1 + b) + 1 := by omega
      rw [hix]
      simpa using htj

lemma findSwap_spec {ts : List Team} {s : SwapChoice} (h : findSwap ts = some s) :
    SwapOK ts s := by
  rw [findSwap] at h
  obtain ⟨a, b, ti, tj, hti, htj, hi, hj, hty, hm1, hm2, hr, hs⟩ := scanI_spec h
  refine ⟨by omega, ti, tj, ?_, ?_, hty, hm1, hm2, hr, hs⟩
  · rw [hi]; simpa using hti
  · rw [hj]; simpa using htj

lemma length_erase_mem {a : Person} :
    ∀ {l : List Person}, a ∈ l → (l.erase a).length + 1 = l.length := by
  intro l
  induction l with
  | nil => intro h; simp at h
  | cons b l ih =>
    intro h
    rw [List.erase_cons]
    by_cases hba : (b == a) = true
    · rw [if_pos hba]
      simp
    · rw [if_neg hba]
      have hal : a ∈ l := by
        rcases List.mem_cons.mp h with rfl | h'
        · simp at hba
        · exact h'
      have := ih hal
      simp only [List.length_cons]
      omega

lemma sumScores_append : ∀ l1 l2 : List Person,
    sumScores (l1 ++ l2) = sumScores l1 + sumScores l2 := by
  intro l1 l2
  induction l1 with
  | nil => simp [sumScores]
  | cons p ps ih => simp [sumScores, ih, add_assoc]

lemma sumScores_erase {a : Person} :
    ∀ {l : List Person}, a ∈ l → sumScores (l.erase a) = sumScores l - a.score := by
  intro l
  induction l with
  | nil => intro h; simp at h
  | cons b l ih =>
    intro h
    rw [List.erase_cons]
    by_cases hba : (b == a) = true
    · rw [if_pos hba]
      obtain rfl : b = a := eq_of_beq hba
      rw [sumScores]
      ring
    · rw [if_neg hba]
      have hal : a ∈ l := by
        rcases List.mem_cons.mp h with rfl | h'
        · simp at hba
        · exact h'
      rw [sumScores, sumScores, ih hal]
      ring

lemma filter_length_erase (f : Person → Bool) {a : Person} :
    ∀ {l : List Person}, a ∈ l →
      ((l.erase a).filter f).length + (if f a then 1 else 0) = (l.filter f).length := by
  intro l
  induction l with
  | nil => intro h; simp at h
  | cons b l ih =>
    intro h
    rw [List.erase_cons]
    by_cases hba : (b == a) = true
    · rw [if_pos hba]
      have hab : b = a := eq_of_beq hba
      rw [List.filter_cons, hab]
      by_cases hfa : f a = true
      · simp [hfa]
      · simp [hfa]
    · rw [if_neg hba]
      have hal : a ∈ l := by
        rcases List.mem_cons.mp h with rfl | h'
        · simp at hba
        · exact h'
      have := ih hal
      rw [List.filter_cons, List.filter_cons]
      by_cases hfb : f b = true
      · simp [hfb]
        omega
      · simp [hfb]
        omega

lemma modifyMembers_get_ne (f : List Person → List Person) :
    ∀ {ts : List Team} {k k' : Nat}, k ≠ k' →
      (modifyMembers k f ts)[k']? = ts[k']? := by
  intro ts
  induction ts with
  | nil => intro k k' _; simp [modifyMembers]
  | cons t ts ih =>
    intro k k' hkk
    cases k with
    | zero =>
      cases k' with
      | zero => omega
      | succ k2 => simp [modifyMembers]
    | succ k1 =>
      cases k' with
      | zero => simp [modifyMembers]
      | succ k2 =>
        simp only [modifyMembers, List.getElem?_cons_succ]
        exact ih (by omega)

lemma modifyMembers_get_self (f : List Person → List Person) :
    ∀ {ts : List Team} {k : Nat} {t : Team}, ts[k]? = some t →
      (modifyMembers k f ts)[k]? = some ⟨t.ttype, f t.members⟩ := by
  intro ts
  induction ts with
  | nil => intro k t h; simp at h
  | cons u ts ih =>
    intro k t h
    cases k with
    | zero =>
      simp only [List.getElem?_cons_zero] at h
      obtain rfl : u = t := Option.some.inj h
      simp [modifyMembers]
    | succ k1 =>
      simp only [List.getElem?_cons_succ] at h
      simp only [modifyMembers, List.getElem?_cons_succ]
      exact ih h

lemma applySwap_membersAt {ts : List Team} {s : SwapChoice} {ti tj : Team}
    (hij : s.i < s.j) (hti : ts[s.i]? = some ti) (htj : ts[s.j]? = some tj) :
    membersAt (applySwap ts s) s.i = (ti.members.erase s.m1) ++ [s.m2] ∧
    membersAt (applySwap ts s) s.j = (tj.members.erase s.m2) ++ [s.m1] ∧
    ((applySwap ts s)[s.i]?).map Team.ttype = some ti.ttype ∧
    ((applySwap ts s)[s.j]?).map Team.ttype = some tj.ttype := by
  have hne : s.j ≠ s.i := by omega
  have hne' : s.i ≠ s.j := by omega
  have h1 : (modifyMembers s.i (fun l => (l.erase s.m1) ++ [s.m2]) ts)[s.i]? =
      some ⟨ti.ttype, (ti.members.erase s.m1) ++ [s.m2]⟩ :=
    modifyMembers_get_self _ hti
  have h2 : (modifyMembers s.i (fun l => (l.erase s.m1) ++ [s.m2]) ts)[s.j]? = some tj := by
    rw [modifyMembers_get_ne _ hne']
    exact htj
  have hi : (applySwap ts s)[s.i]? = some ⟨ti.ttype, (ti.members.erase s.m1) ++ [s.m2]⟩ := by
    rw [applySwap, modifyMembers_get_ne _ hne]
    exact h1
  have hj : (applySwap ts s)[s.j]? =
      some ⟨tj.ttype, (tj.members.erase s.m2) ++ [s.m1]⟩ := by
    rw [applySwap]
    exact modifyMembers_get_self _ h2
  refine ⟨?_, ?_, ?_, ?_⟩
  · rw [membersAt, hi]
  · rw [membersAt, hj]
  · rw [hi]
    rfl
  · rw [hj]
    rfl

/-- C5 (amended): what each accepted Balancer swap does guarantee.  For
every team configuration, whenever the balancer accepts a swap
(src/3.py lines 236-245), the pairwise imbalance of the two teams
involved — the absolute difference of their average scores — strictly
decreases; the original claim's global sum over all template-matched
pairs can nevertheless increase (see the counterexample), because the
acceptance test only inspects the swapped pair. -/
theorem C5_pairwise_improvement (ts : List Team) (s : SwapChoice)
    (h : findSwap ts = some s) :
    |avgScore (membersAt (applySwap ts s) s.i) -
      avgScore (membersAt (applySwap ts s) s.j)| <
    |avgScore (membersAt ts s.i) - avgScore (membersAt ts s.j)| := by
  obtain ⟨hij, ti, tj, hti, htj, hty, hm1, hm2, hrole, hcond⟩ := findSwap_spec h
  obtain ⟨hmi, hmj, _, _⟩ := applySwap_membersAt hij hti htj
  have hmi0 : membersAt ts s.i = ti.members := by rw [membersAt, hti]
  have hmj0 : membersAt ts s.j = tj.members := by rw [membersAt, htj]
  have hni : 0 < ti.members.length := List.length_pos.mpr (List.ne_nil_of_mem hm1)
  have hnj : 0 < tj.members.length := List.length_pos.mpr (List.ne_nil_of_mem hm2)
  have hnei : ((ti.members.length : Nat) : Rat) ≠ 0 := by
    exact_mod_cast Nat.pos_iff_ne_zero.mp hni
  have hnej : ((tj.members.length : Nat) : Rat) ≠ 0 := by
    exact_mod_cast Nat.pos_iff_ne_zero.mp hnj
  have hli : ((ti.members.erase s.m1) ++ [s.m2]).length = ti.members.length := by
    rw [List.length_append]
    have := length_erase_mem hm1
    simp only [List.length_singleton]
    omega
  have hlj : ((tj.members.erase s.m2) ++ [s.m1]).length = tj.members.length := by
    rw [List.length_append]
    have := length_erase_mem hm2
    simp only [List.length_singleton]
    omega
  have hsi : sumScores ((ti.members.erase s.m1) ++ [s.m2]) =
      sumScores ti.members - s.m1.score + s.m2.score := by
    rw [sumScores_append, sumScores_erase hm1]
    simp [sumScores]
  have hsj : sumScores ((tj.members.erase s.m2) ++ [s.m1]) =
      sumScores tj.members - s.m2.score + s.m1.score := by
    rw [sumScores_append, sumScores_erase hm2]
    simp [sumScores]
  have havgi : avgScore ti.members = sumScores ti.members / (ti.members.length : Rat) := by
    rw [avgScore, if_neg (by omega)]
  have havgj : avgScore tj.members = sumScores tj.members / (tj.members.length : Rat) := by
    rw [avgScore, if_neg (by omega)]
  have havgi' : avgScore ((ti.members.erase s.m1) ++ [s.m2]) =
      (sumScores ti.members - s.m1.score + s.m2.score) / (ti.members.length : Rat) := by
    rw [avgScore, hli, hsi, if_neg (by omega)]
  have havgj' : avgScore ((tj.members.erase s.m2) ++ [s.m1]) =
      (sumScores tj.members - s.m2.score + s.m1.score) / (tj.members.length : Rat) := by
    rw [avgScore, hlj, hsj, if_neg (by omega)]
  simp only [swapCond, decide_eq_true_eq, havgi, havgj,
    div_mul_cancel₀ _ hnei, div_mul_cancel₀ _ hnej] at hcond
  rw [hmi, hmj, hmi0, hmj0, havgi', havgj', havgi, havgj]
  exact hcond

/-- C5 witness: the pairwise-improvement theorem applied to the concrete
counterexample configuration and its first accepted swap. -/
theorem C5_pairwise_improvement_witness :
    |avgScore (membersAt (applySwap cexTeams cexSwap) cexSwap.i) -
      avgScore (membersAt (applySwap cexTeams cexSwap) cexSwap.j)| <
    |avgScore (membersAt cexTeams cexSwap.i) - avgScore (membersAt cexTeams cexSwap.j)| :=
  C5_pairwise_improvement cexTeams cexSwap findSwap_cex

/-- C7: swap neutrality holds on the code.  Every swap balance_teams
accepts (src/3.py lines 228-245) exchanges two members with identical
raw role strings, one from each of two distinct teams: all teams other
than the two swapped ones are completely untouched, both swapped teams
keep their template name, their member counts are exactly unchanged,
and for every role string the per-team member count of that role is
exactly unchanged in both swapped teams. -/
theorem C7_swap_neutrality (ts : List Team) (s : SwapChoice)
    (h : findSwap ts = some s) :
    (∀ k, k ≠ s.i → k ≠ s.j → (applySwap ts s)[k]? = ts[k]?) ∧
    ((applySwap ts s)[s.i]?).map Team.ttype = (ts[s.i]?).map Team.ttype ∧
    ((applySwap ts s)[s.j]?).map Team.ttype = (ts[s.j]?).map Team.ttype ∧
    (membersAt (applySwap ts s) s.i).length = (membersAt ts s.i).length ∧
    (membersAt (applySwap ts s) s.j).length = (membersAt ts s.j).length ∧
    ∀ r : String,
      roleCount r (membersAt (applySwap ts s) s.i) = roleCount r (membersAt ts s.i) ∧
      roleCount r (membersAt (applySwap ts s) s.j) = roleCount r (membersAt ts s.j) := by
  obtain ⟨hij, ti, tj, hti, htj, hty, hm1, hm2, hrole, _⟩ := findSwap_spec h
  obtain ⟨hmi, hmj, hsi, hsj⟩ := applySwap_membersAt hij hti htj
  have hmi0 : membersAt ts s.i = ti.members := by rw [membersAt, hti]
  have hmj0 : membersAt ts s.j = tj.members := by rw [membersAt, htj]
  refine ⟨?_, ?_, ?_, ?_, ?_, ?_⟩
  · intro k hki hkj
    rw [applySwap, modifyMembers_get_ne _ (fun e => hkj e.symm),
      modifyMembers_get_ne _ (fun e => hki e.symm)]
  · rw [hsi, hti]
    rfl
  · rw [hsj, htj]
    rfl
  · rw [hmi, hmi0, List.length_append]
    have := length_erase_mem hm1
    simp only [List.length_singleton]
    omega
  · rw [hmj, hmj0, List.length_append]
    have := length_erase_mem hm2
    simp only [List.length_singleton]
    omega
  · intro r
    constructor
    · rw [hmi, hmi0, roleCount, roleCount, List.filter_append, List.length_append]
      have h1 := filter_length_erase (fun m => m.role == r) hm1
      have h2 : ((fun m => m.role == r) s.m1) = ((fun m => m.role == r) s.m2) := by
        simp only [hrole]
      by_cases hf : (s.m1.role == r) = true
      · have hf2 : (s.m2.role == r) = true := by rw [← hrole]; exact hf
        simp [hf] at h1
        simp [hf2]
        omega
      · have hf2 : ¬ (s.m2.role == r) = true := by rw [← hrole]; exact hf
        simp [hf] at h1
        simp [hf2]
        omega
    · rw [hmj, hmj0, roleCount, roleCount, List.filter_append, List.length_append]
      have h1 := filter_length_erase (fun m => m.role == r) hm2
      by_cases hf : (s.m2.role == r) = true
      · have hf2 : (s.m1.role == r) = true := by rw [hrole]; exact hf
        simp [hf] at h1
        simp [hf2]
        omega
      · have hf2 : ¬ (s.m1.role == r) = true := by rw [hrole]; exact hf
        simp [hf] at h1
        simp [hf2]
        omega

/-- C7 witness: the neutrality theorem applied to the concrete
counterexample configuration (team 0 keeps its size after the swap). -/
theorem C7_swap_neutrality_witness :
    (membersAt (applySwap cexTeams cexSwap) cexSwap.i).length =
      (membersAt cexTeams cexSwap.i).length :=
  (C7_swap_neutrality cexTeams cexSwap findSwap_cex).2.2.2.1

/-- C10: the Balancer's candidate test (src/3.py line 230, identically
src/team-former1.py line 211) compares the raw role strings with ==,
not the lowercased forms used by allocation and redistribution, so any
swap it ever returns pairs two members whose role strings are
codepoint-identical; members whose roles agree only up to letter case
can never be the returned pair. -/
theorem C10_raw_role_comparison (ts : List Team) (s : SwapChoice)
    (h : findSwap ts = some s) : s.m1.role = s.m2.role := by
  obtain ⟨_, _, _, _, _, _, _, _, hrole, _⟩ := findSwap_spec h
  exact hrole

/-- C10 witness: the raw-role theorem applied to the concrete
counterexample configuration. -/
theorem C10_raw_role_comparison_witness : cexSwap.m1.role = cexSwap.m2.role :=
  C10_raw_role_comparison cexTeams cexSwap findSwap_cex

lemma balanceGo_reaches : ∀ (fuel : Nat) (ts : List Team),
    ∃ k, k ≤ fuel ∧ Reaches ts k (balanceGo fuel ts) ∧
      (k < fuel → findSwap (balanceGo fuel ts) = none) := by
  intro fuel
  induction fuel with
  | zero =>
    intro ts
    exact ⟨0, Nat.le_refl 0, Reaches.refl ts, fun hk => absurd hk (by omega)⟩
  | succ fuel ih =>
    intro ts
    cases hfs : findSwap ts with
    | none =>
      refine ⟨0, by omega, ?_, fun _ => ?_⟩
      · rw [balanceGo, hfs]
        exact Reaches.refl ts
      · rw [balanceGo, hfs]
        exact hfs
    | some s =>
      obtain ⟨k, hk, hr, hnone⟩ := ih (applySwap ts s)
      refine ⟨k + 1, by omega, ?_, fun hlt => ?_⟩
      · rw [balanceGo, hfs]
        exact Reaches.step s hfs hr
      · rw [balanceGo, hfs]
        exact hnone (by omega)

/-- C9: balance_teams terminates under the iteration cap.  For every
team configuration the result of balance_teams is reached from the
input by some number k ≤ 100 of accepted swaps (one per pass of the
`while improved and iterations < 100` loop, src/3.py lines 195-253),
and when fewer than 100 passes were used the loop stopped precisely
because a full pass found no improving swap: no further accepted swap
exists on the result.  (In the Python source the cap is the sole
termination guarantee; the embedding makes the cap the fuel of
balanceGo.) -/
theorem C9_balancer_termination (ts : List Team) :
    ∃ k, k ≤ 100 ∧ Reaches ts k (balance_teams ts) ∧
      (k < 100 → findSwap (balance_teams ts) = none) := by
  rw [balance_teams]
  exact balanceGo_reaches 100 ts

lemma setTeam_length : ∀ (ts : List Team) (k : Nat) (p : Person),
    (setTeam ts k p).length = ts.length := by
  intro ts
  induction ts with
  | nil => intro k p; simp [setTeam]
  | cons t ts ih =>
    intro k p
    cases k with
    | zero => simp [setTeam]
    | succ k' => simp [setTeam, ih]

lemma redistLoop_teams_length {tts : List TeamType} {lk : Option String} :
    ∀ (fuel : Nat) (teams : List Team) (rem : List Person) (i : Nat)
      (res : List Team × List Person),
      redistLoop tts lk fuel teams rem i = Except.ok res →
        res.1.length = teams.length := by
  intro fuel
  induction fuel with
  | zero =>
    intro teams rem i res h
    rw [redistLoop] at h
    obtain rfl : (teams, rem) = res := by
      have := Except.ok.inj h
      exact this
    rfl
  | succ fuel ih =>
    intro teams rem i res h
    rw [redistLoop] at h
    by_cases hi : i < rem.length
    · rw [dif_pos hi] at h
      dsimp only at h
      cases hscan : scanTeams tts lk (rem.get ⟨i, hi⟩) teams 0 none with
      | error e => rw [hscan] at h; exact absurd h (by simp)
      | ok ob =>
        rw [hscan] at h
        cases ob with
        | none => exact ih teams rem (i + 1) res h
        | some k =>
          have := ih (setTeam teams k (rem.get ⟨i, hi⟩))
            (rem.erase (rem.get ⟨i, hi⟩)) (i + 1) res h
          rw [this, setTeam_length]
    · rw [dif_neg hi] at h
      obtain rfl : (teams, rem) = res := Except.ok.inj h
      rfl

/-- C6: InsufficientSupply behaviour holds on the code.  Whenever the
construction loop's minimum-fill for the current template fails — some
role has fewer available people than its declared min (src/3.py lines
74-76) — the loop returns immediately (src/3.py lines 84-85): the
returned committed teams are exactly those already committed (the
partial attempt is not kept, no further team of any template is
attempted), and no exception arises (the loop is a total function whose
result feeds the redistribution pass, which — second conjunct — never
changes the number of teams, so the caller receives exactly the
already-committed teams together with a leftover list).  Note the
failing attempt's already-claimed people are missing from the returned
pool — that is claim C1's conservation bug, not contradicted here
because this claim only promises which teams are returned. -/
theorem C6_insufficient_supply (tts : List TeamType) (fuel team_idx : Nat)
    (teams : List Team) (pool : List Person) (leaked : Option String)
    (cfg : TeamType)
    (hcfg : tts[team_idx % tts.length]? = some cfg)
    (hfail : (minFill cfg.roles ⟨[], pool, leaked⟩).1 = false) :
    formLoop tts (fuel + 1) team_idx teams pool leaked =
      (teams, (minFill cfg.roles ⟨[], pool, leaked⟩).2.pool,
        (minFill cfg.roles ⟨[], pool, leaked⟩).2.leaked) ∧
    ∀ (lk2 : Option String) (fuel2 : Nat) (ts2 : List Team) (rem : List Person)
      (i : Nat) (res : List Team × List Person),
      redistLoop tts lk2 fuel2 ts2 rem i = Except.ok res →
        res.1.length = ts2.length := by
  constructor
  · rcases hmf : minFill cfg.roles ⟨[], pool, leaked⟩ with ⟨b, st⟩
    rw [hmf] at hfail
    simp only at hfail
    subst hfail
    simp only [formLoop, hcfg, hmf]
  · intro lk2 fuel2 ts2 rem i res h
    exact redistLoop_teams_length fuel2 ts2 rem i res h

/-- C6 witness: on an empty pool the QA minimum fails at once, and the
loop returns no teams, the untouched (empty) pool and the leaked role. -/
theorem C6_insufficient_supply_witness :
    formLoop [wCfg] 5 0 [] [] none = ([], [], some "QA") :=
  (C6_insufficient_supply [wCfg] 4 0 [] [] none wCfg rfl rfl).1
